import Mathlib

/-!
Verification development for the expert-annotator extension.

This file gives a shallow embedding, in Lean 4, of the highlight-lifecycle
and overlay-reconciliation logic of the extension (`pdf_viewer.js`,
`sidepanel.js`, `background.js`, `api.js`), and proves or refutes the
frozen claims about it.  JavaScript numbers are modelled as rationals
(`ℚ`), strings as `String`, nullable string fields as `Option String`
(`none` covers both `null`/`undefined` and the empty string, which the
code normalises away with `|| null` when building payloads), and the
single-threaded event handlers as pure functions from state to state
together with an explicit trace of emitted effects.
-/

namespace ExpertAnnotator

/-- A rectangle in page-pixel space, as carried by `AreaSelector` rects and
overlay payloads (`Rect{x1,y1,x2,y2,width,height}` in the data model). -/
structure Rect where
  x1 : ℚ
  y1 : ℚ
  x2 : ℚ
  y2 : ℚ
  deriving Repr, DecidableEq

/-- A page viewport: the pixel dimensions of a rendered page at the current
scale (`pageViewports.get(page)` in `pdf_viewer.js`). -/
structure Viewport where
  width : ℚ
  height : ℚ
  deriving Repr, DecidableEq

/-- One stored overlay mark of the Overlay Engine
(`pageHighlightData`: `{x1,y1,x2,y2,color,fingerprint,localId,highlightId}`,
coordinates normalised to `[0,1]` by the page dimensions). -/
structure OverlayMark where
  x1 : ℚ
  y1 : ℚ
  x2 : ℚ
  y2 : ℚ
  color : String
  fingerprint : Option String
  localId : Option String
  highlightId : Option String
  deriving Repr, DecidableEq

/-- The identifier triple a removal / cancellation request carries
(`{ highlightId, localId, fingerprint }` as destructured in
`removeMarkByIdentifiers` / `marksMatch` in `pdf_viewer.js`). -/
structure MatchKey where
  highlightId : Option String
  localId : Option String
  fingerprint : Option String
  deriving Repr, DecidableEq

/-- Embeds `marksMatch(candidate, match)` of `pdf_viewer.js` (lines 661-675):

```js
if (match.highlightId && candidate.highlightId === match.highlightId) return true;
if (match.localId && candidate.localId === match.localId) return true;
if (!match.highlightId && !match.localId && match.fingerprint
    && candidate.fingerprint === match.fingerprint) return true;
return false;
```

A truthy JS field is a `some` here; `===` on two present strings is string
equality. -/
def marksMatch (candidate : OverlayMark) (m : MatchKey) : Bool :=
  (m.highlightId.isSome && candidate.highlightId == m.highlightId)
  || (m.localId.isSome && candidate.localId == m.localId)
  || (m.highlightId.isNone && m.localId.isNone && m.fingerprint.isSome
      && candidate.fingerprint == m.fingerprint)

/-- Embeds `removeMarksMatching(page, match)` of `pdf_viewer.js` (lines
677-699) on the mark list of one page.  The source walks the array from the
highest index down and splices out every candidate for which `marksMatch`
holds, then reverses the collected entries; the net effect on the stored
list is a filter by `¬ marksMatch`, and the returned entries are exactly
the matching marks in increasing original index order.  We return the pair
(remaining marks, removed marks). -/
def removeMarksMatching (marks : List OverlayMark) (m : MatchKey) :
    List OverlayMark × List OverlayMark :=
  (marks.filter (fun c => !(marksMatch c m)), marks.filter (fun c => marksMatch c m))

/-! ### Sentiment normalisation (`pdf_viewer.js` lines 46-82, `sidepanel.js` lines 32-58, 184-206)

JS string keys are matched after `String(rawValue).trim().toLowerCase()`;
`null`/`undefined` inputs are the `none` case of `Option String`. -/

/-- JS `String.prototype.trim` whitespace, restricted to the ASCII
whitespace characters that can actually occur in the sentiment labels
handled here. -/
def isJsWhitespace (c : Char) : Bool :=
  c = ' ' || c = '\t' || c = '\n' || c = '\r'

/-- `String.prototype.trim()`: strip leading and trailing whitespace.
Implemented over the character list so that concrete instances reduce in
the kernel. -/
def jsTrim (s : String) : String :=
  ⟨((s.data.dropWhile isJsWhitespace).reverse.dropWhile isJsWhitespace).reverse⟩

/-- ASCII lower-casing of one character, as `String.prototype.toLowerCase()`
acts on the A-Z range (the only characters the sentiment keys use;
non-letters and emojis are untouched). -/
def jsLowerChar (c : Char) : Char :=
  if 65 ≤ c.toNat ∧ c.toNat ≤ 90 then Char.ofNat (c.toNat + 32) else c

/-- `String.prototype.toLowerCase()` over the character list. -/
def jsToLower (s : String) : String :=
  ⟨s.data.map jsLowerChar⟩

/-- `DEFAULT_PDF_SENTIMENT` in both `pdf_viewer.js` and `sidepanel.js`. -/
def DEFAULT_PDF_SENTIMENT : String := "thumbsup"

/-- Lookup in a JS object literal used as a map: the value at the first
matching key (keys are unique in all the literals embedded here), `none`
when the key is absent. -/
def assocLookup (pairs : List (String × String)) (key : String) : Option String :=
  match pairs with
  | [] => none
  | (k, v) :: rest => if key = k then some v else assocLookup rest key

/-- A JavaScript value as the sentiment normalisers can produce it: either
a string, or the truthy non-string object a bare bracket lookup on a
plain object literal finds on the prototype chain (for key
`"constructor"` that is `Object.prototype.constructor`, for
`"__proto__"` it is `Object.prototype` itself). -/
inductive JsVal where
  | str (s : String)
  | inherited (key : String)
  deriving Repr, DecidableEq

/-- Bare bracket lookup `LITERAL[key]` on a plain JS object literal, as
the alias maps are accessed: an own key of the literal wins; otherwise
the lookup walks the prototype chain, and a key naming an
`Object.prototype` property returns that property's truthy non-string
value; only then is the result `undefined` (`none`).  The keys reaching
these lookups are already lower-cased, and the only all-lowercase own
property names of `Object.prototype` are `constructor` and `__proto__`
(`hasOwnProperty`, `toString`, `valueOf`, `isPrototypeOf`,
`propertyIsEnumerable`, `toLocaleString`, `__defineGetter__`,
`__defineSetter__`, `__lookupGetter__`, `__lookupSetter__` all carry an
upper-case letter, and property access is case-sensitive). -/
def objectLiteralGet (pairs : List (String × String)) (key : String) : Option JsVal :=
  match assocLookup pairs key with
  | some v => some (JsVal.str v)
  | none =>
    if key = "constructor" ∨ key = "__proto__" then some (JsVal.inherited key)
    else none

/-- The entries of `PDF_SENTIMENT_ALIAS_MAP` in `pdf_viewer.js` (lines
52-69).  Note the map also contains the three canonical values themselves
as keys. -/
def pdfSentimentAliasPairs : List (String × String) :=
  [("thumbs up", "thumbsup"),
   ("👍", "thumbsup"),
   ("thumbsup", "thumbsup"),
   ("thumbs down", "thumbsdown"),
   ("thumbs-down", "thumbsdown"),
   ("👎", "thumbsdown"),
   ("thumbsdown", "thumbsdown"),
   ("neutral information", "neutral_information"),
   ("neutral-information", "neutral_information"),
   ("neutral_information", "neutral_information"),
   ("pdf highlight", "neutral_information"),
   ("core concept", "thumbsup"),
   ("not relevant", "thumbsdown"),
   ("method weakness", "thumbsdown"),
   ("generate new search", "neutral_information"),
   ("search result", "neutral_information")]

/-- The lookup `PDF_SENTIMENT_ALIAS_MAP[key]`; a missing key is `none`. -/
def pdfSentimentAliasLookup (key : String) : Option String :=
  assocLookup pdfSentimentAliasPairs key

/-- `PDF_REVIEW_SENTIMENTS.some((option) => option.value === key)` in
`pdf_viewer.js`: the three canonical sentiment values. -/
def isCanonicalSentiment (key : String) : Bool :=
  key = "thumbsup" || key = "neutral_information" || key = "thumbsdown"

/-- Embeds `normalisePdfSentimentValue(rawValue)` of `pdf_viewer.js` (lines
70-82).  `rawValue` is `none` for `null`/`undefined`; otherwise the string
is trimmed and lower-cased into a key, an empty key yields the default,
and the result is `PDF_SENTIMENT_ALIAS_MAP[key] || (canonical ? key :
default)`.  The bracket lookup is a bare object-literal access
(`objectLiteralGet`): own alias entries and inherited
`Object.prototype` values are both truthy and short-circuit the `||`, so
the keys `constructor` and `__proto__` make the function return a truthy
non-string value. -/
def normalisePdfSentimentValue (rawValue : Option String) : JsVal :=
  match rawValue with
  | none => JsVal.str DEFAULT_PDF_SENTIMENT
  | some s =>
    let key := jsToLower (jsTrim s)
    if key = "" then JsVal.str DEFAULT_PDF_SENTIMENT
    else
      match objectLiteralGet pdfSentimentAliasPairs key with
      | some v => v
      | none =>
        if isCanonicalSentiment key then JsVal.str key
        else JsVal.str DEFAULT_PDF_SENTIMENT

/-- `SENTIMENT_CANONICALS` of `sidepanel.js`: `thumbsup`, `thumbsdown`
(from `HTML_SENTIMENT_OPTIONS`) plus `neutral_information`. -/
def sentimentCanonicalsHas (key : String) : Bool :=
  key = "thumbsup" || key = "thumbsdown" || key = "neutral_information"

/-- The entries of `SENTIMENT_ALIAS_MAP` of `sidepanel.js` (lines 41-49). -/
def sentimentAliasPairs : List (String × String) :=
  [("thumbs up", "thumbsup"),
   ("👍", "thumbsup"),
   ("thumbs-down", "thumbsdown"),
   ("thumbs down", "thumbsdown"),
   ("👎", "thumbsdown"),
   ("neutral information", "neutral_information"),
   ("neutral-information", "neutral_information")]

/-- `SENTIMENT_ALIAS_MAP[key]` of `sidepanel.js`. -/
def sentimentAliasLookup (key : String) : Option String :=
  assocLookup sentimentAliasPairs key

/-- The entries of `LEGACY_PDF_SENTIMENT_MAP` of `sidepanel.js` (lines
50-57). -/
def legacyPdfSentimentPairs : List (String × String) :=
  [("pdf highlight", "neutral_information"),
   ("core concept", "thumbsup"),
   ("not relevant", "thumbsdown"),
   ("method weakness", "thumbsdown"),
   ("generate new search", "neutral_information"),
   ("search result", "neutral_information")]

/-- `LEGACY_PDF_SENTIMENT_MAP[key]` of `sidepanel.js`. -/
def legacyPdfSentimentLookup (key : String) : Option String :=
  assocLookup legacyPdfSentimentPairs key

/-- Embeds `normaliseSentimentValue(rawValue)` of `sidepanel.js` (lines
184-202): `null`/empty give `none` (JS `null`); a canonical key is
returned as is; otherwise `if (SENTIMENT_ALIAS_MAP[key]) return
SENTIMENT_ALIAS_MAP[key];` then the same on `LEGACY_PDF_SENTIMENT_MAP`,
else `null`.  Both bracket lookups are bare object-literal accesses
(`objectLiteralGet`); a truthy inherited `Object.prototype` value
(`constructor`, `__proto__`) passes the truthiness test and is returned
as is. -/
def normaliseSentimentValue (rawValue : Option String) : Option JsVal :=
  match rawValue with
  | none => none
  | some s =>
    let key := jsToLower (jsTrim s)
    if key = "" then none
    else if sentimentCanonicalsHas key then some (JsVal.str key)
    else
      match objectLiteralGet sentimentAliasPairs key with
      | some v => some v
      | none => objectLiteralGet legacyPdfSentimentPairs key

/-- Embeds `ensurePdfSentiment(rawValue)` of `sidepanel.js` (lines 204-206):
`normaliseSentimentValue(rawValue) || DEFAULT_PDF_SENTIMENT`.  Every
non-`null` value `normaliseSentimentValue` can return is truthy
(non-empty canonical strings and inherited `Object.prototype` values),
so the `||` is exactly `getD`. -/
def ensurePdfSentiment (rawValue : Option String) : JsVal :=
  (normaliseSentimentValue rawValue).getD (JsVal.str DEFAULT_PDF_SENTIMENT)

/-- Embeds `resolveOverlayColor(rawColor, { highlightId })` of
`pdf_viewer.js` (lines 84-105).  A non-string (`none`) raw colour falls to
the final `return highlightId ? "neutral" : "neutral"`, which is
`"neutral"` either way. -/
def resolveOverlayColor (rawColor : Option String) : String :=
  match rawColor with
  | none => "neutral"
  | some c =>
    let colourKey := jsToLower c
    if colourKey = "positive" || colourKey = "negative" || colourKey = "neutral" then colourKey
    else if colourKey = "secondary" then "neutral"
    else
      let normalizedSentiment := normalisePdfSentimentValue (some colourKey)
      if normalizedSentiment = JsVal.str "thumbsup" then "positive"
      else if normalizedSentiment = JsVal.str "thumbsdown" then "negative"
      else "neutral"

/-! ### Fingerprints (`sidepanel.js` lines 285-294, `pdf_viewer.js` lines 620-628) -/

/-- Two-digit zero padding of the fractional hundredths. -/
def pad2 (n : ℕ) : String :=
  if n < 10 then "0" ++ toString n else toString n

/-- Models `Number.prototype.toFixed(2)`: the sign of the input, followed
by the decimal rendering of the integer `n` minimising `|n/100 - |x||`
(ties towards the larger `n`, i.e. `⌊|x|·100 + 1/2⌋`), with exactly two
fractional digits. -/
def toFixed2 (q : ℚ) : String :=
  let n : ℕ := (⌊|q| * 100 + 1/2⌋).toNat
  (if q < 0 then "-" else "") ++ toString (n / 100) ++ "." ++ pad2 (n % 100)

/-- A selector as the Control Panel sees it: `AreaSelector` carries a
non-empty `rects` list and a page; `QuoteSelector` carries the exact text
plus context strings and no rects.  The JS fields `prefix` / `suffix` are
renamed `ctxBefore` / `ctxAfter` because Lean reserves those words. -/
structure Selector where
  rects : List Rect
  page : Option ℕ
  exact : Option String
  ctxBefore : Option String
  ctxAfter : Option String
  deriving Repr, DecidableEq

/-- Embeds `fingerprintFromSelector(selector)` of `sidepanel.js` (lines
285-294): `null` unless the selector has a non-empty `rects` array, in
which case the first rect's four coordinates are formatted with
`toFixed(2)` and joined with `":"`.  (`Number(value || 0)` only affects
`null`/`undefined` coordinates, which our total `Rect` fields exclude.) -/
def fingerprintFromSelector (selector : Selector) : Option String :=
  match selector.rects with
  | [] => none
  | r :: _ => some (String.intercalate ":" ([r.x1, r.y1, r.x2, r.y2].map toFixed2))

/-- The fingerprint fallback computed in `addOverlayHighlights` of
`pdf_viewer.js` (lines 626-627) for an incoming rect without an explicit
fingerprint: `[x1,y1,x2,y2].map((v) => Number(v).toFixed(2)).join(":")`
over the base rect. -/
def overlayRectFingerprint (r : Rect) : String :=
  String.intercalate ":" ([r.x1, r.y1, r.x2, r.y2].map toFixed2)

/-! ### Overlay insertion and rendering (`pdf_viewer.js` lines 550-659) -/

/-- One element of the `rects` array handed to `addOverlayHighlights`
(after the `PDF_HIGHLIGHT_CREATED` handler has copied the payload-level
`highlight_id` / `local_id` onto each rect).  The source's `baseRect`
step only fills in the `width`/`height` fields from `x2-x1`/`y2-y1`;
neither `normaliseRect` nor the fingerprint fallback reads those fields,
so they are omitted here. -/
structure RectPayload where
  x1 : ℚ
  y1 : ℚ
  x2 : ℚ
  y2 : ℚ
  color : Option String
  fingerprint : Option String
  localId : Option String
  highlightId : Option String
  deriving Repr, DecidableEq

/-- Embeds `normaliseRect(rect, viewport)` of `pdf_viewer.js` (lines
550-557): divide by the viewport dimensions. -/
def normaliseRect (rect : Rect) (viewport : Viewport) : Rect :=
  { x1 := rect.x1 / viewport.width
    y1 := rect.y1 / viewport.height
    x2 := rect.x2 / viewport.width
    y2 := rect.y2 / viewport.height }

/-- The per-rect normalisation step inside `addOverlayHighlights`
(`pdf_viewer.js` lines 620-636): resolve the colour, take the explicit
fingerprint or the two-decimal fallback, normalise the geometry, and keep
the identifiers (`rect.localId || rect.local_id || null` is the `Option`
value itself). -/
def normalisePayload (viewport : Viewport) (r : RectPayload) : OverlayMark :=
  let nr := normaliseRect ⟨r.x1, r.y1, r.x2, r.y2⟩ viewport
  { x1 := nr.x1
    y1 := nr.y1
    x2 := nr.x2
    y2 := nr.y2
    color := resolveOverlayColor r.color
    fingerprint := some (r.fingerprint.getD (overlayRectFingerprint ⟨r.x1, r.y1, r.x2, r.y2⟩))
    localId := r.localId
    highlightId := r.highlightId }

/-- The `findIndex` callback inside `addOverlayHighlights` (`pdf_viewer.js`
lines 639-650).  Note the control flow of the source: when both `localId`s
are present and equal, the callback *returns* the geometry-epsilon test,
so a far-away geometry blocks the fingerprint fallback for that candidate:

```js
if (mark.highlightId && existingMark.highlightId && mark.highlightId === existingMark.highlightId)
  return true;
if (mark.localId && existingMark.localId && mark.localId === existingMark.localId)
  return Math.abs(existingMark.x1 - mark.x1) < 0.002 && Math.abs(existingMark.y1 - mark.y1) < 0.002;
if (mark.fingerprint && existingMark.fingerprint && mark.fingerprint === existingMark.fingerprint)
  return true;
return false;
``` -/
def overlayMergeMatches (mark existing : OverlayMark) : Bool :=
  if mark.highlightId.isSome && existing.highlightId.isSome
      && mark.highlightId == existing.highlightId then true
  else if mark.localId.isSome && existing.localId.isSome
      && mark.localId == existing.localId then
    decide (|existing.x1 - mark.x1| < 0.002) && decide (|existing.y1 - mark.y1| < 0.002)
  else if mark.fingerprint.isSome && existing.fingerprint.isSome
      && mark.fingerprint == existing.fingerprint then true
  else false

/-- One step of the merge loop of `addOverlayHighlights` (`pdf_viewer.js`
lines 638-656): the incoming mark replaces the first stored mark the
`findIndex` callback accepts, else it is appended at the end.  (The
source's `merged[matchIndex] = { ...merged[matchIndex], ...mark }` spreads
the incoming mark last, and the incoming mark carries every field, so the
merged entry is the incoming mark.) -/
def mergeOverlayMark (mark : OverlayMark) : List OverlayMark → List OverlayMark
  | [] => [mark]
  | existing :: rest =>
    if overlayMergeMatches mark existing then mark :: rest
    else existing :: mergeOverlayMark mark rest

/-- The whole merge loop of `addOverlayHighlights` over already-normalised
incoming marks: `normalised.forEach(...)` over the growing `merged`
array. -/
def addOverlayMarks (existing : List OverlayMark) (incoming : List OverlayMark) :
    List OverlayMark :=
  incoming.foldl (fun acc mark => mergeOverlayMark mark acc) existing

/-- The Overlay Engine's state for one page: the stored normalised marks
(`pageHighlightData`), the raw rects queued before the page's viewport
exists (`pendingHighlightQueue`), and whether a viewport is known. -/
structure PageOverlayState where
  marks : List OverlayMark
  pending : List RectPayload
  viewport : Option Viewport
  deriving Repr, DecidableEq

/-- Embeds `addOverlayHighlights(page, rects)` of `pdf_viewer.js` (lines
609-659) acting on one page's state: empty payloads are ignored; without a
viewport the rects are appended to the pending queue; with a viewport they
are normalised and merged into the stored marks. -/
def addOverlayHighlights (st : PageOverlayState) (rects : List RectPayload) :
    PageOverlayState :=
  if rects.isEmpty then st
  else
    match st.viewport with
    | none => { st with pending := st.pending ++ rects }
    | some vp =>
      { st with marks := addOverlayMarks st.marks (rects.map (normalisePayload vp)) }

/-! ### Zoom and rendering (`pdf_viewer.js` lines 183-298, 559-607) -/

/-- The pixel box `renderOverlayForPage` paints for one mark
(`pdf_viewer.js` lines 582-589): denormalise by the current viewport and
clamp width and height to at least 2 pixels. -/
structure PixelBox where
  left : ℚ
  top : ℚ
  width : ℚ
  height : ℚ
  deriving Repr, DecidableEq

/-- Denormalisation of one stored mark at a given viewport
(`pdf_viewer.js` lines 582-589). -/
def denormMark (mark : OverlayMark) (vp : Viewport) : PixelBox :=
  { left := mark.x1 * vp.width
    top := mark.y1 * vp.height
    width := max ((mark.x2 - mark.x1) * vp.width) 2
    height := max ((mark.y2 - mark.y1) * vp.height) 2 }

/-- `baseViewport.clone({ scale })` of pdf.js: the page's scale-1 viewport
scaled linearly (`pdf_viewer.js` line 195). -/
def viewportAt (base : Viewport) (scale : ℚ) : Viewport :=
  { width := base.width * scale, height := base.height * scale }

/-- Viewer state of one page across zoom changes: stored marks, pending
queue and the current scale (`currentScale`). -/
structure ViewerPageState where
  marks : List OverlayMark
  pending : List RectPayload
  scale : ℚ
  deriving Repr, DecidableEq

/-- `Math.max(0.5, Math.min(scale, 4))` (`pdf_viewer.js` line 286). -/
def clampScale (s : ℚ) : ℚ := max (1/2) (min s 4)

/-- Embeds `setScale(scale)` of `pdf_viewer.js` (lines 285-293) together
with the `renderAllPages` work it triggers on this page's overlay data:
scale changes below the 0.01 threshold are ignored; otherwise the scale is
clamped and stored, `renderAllPages` rebuilds the viewport for the page
and `flushPendingHighlights` (lines 844-851) merges any queued rects into
the stored marks through `addOverlayHighlights`.  The stored marks
themselves are not touched by re-rendering. -/
def setScale (base : Viewport) (s : ℚ) (st : ViewerPageState) : ViewerPageState :=
  let clamped := clampScale s
  if |clamped - st.scale| < 1/100 then st
  else
    { marks := addOverlayMarks st.marks
        (st.pending.map (normalisePayload (viewportAt base clamped)))
      pending := []
      scale := clamped }

/-- The list of pixel boxes `renderOverlayForPage` paints for this page at
the current scale (`pdf_viewer.js` lines 559-607): a pure function of the
stored normalised marks and the current viewport. -/
def renderOverlayPositions (st : ViewerPageState) (base : Viewport) : List PixelBox :=
  st.marks.map (fun mark => denormMark mark (viewportAt base st.scale))

/-! ### Order de-duplication (`sidepanel.js` line 1788, `pdf_viewer.js` lines 1248-1264) -/

/-- Iteration worker for `dedupFirst`: `seen` is the set of ids already
emitted.  Mirrors both `Array.from(new Set(order))` (insertion-order set
semantics, `savePdfDocumentReview`) and the explicit `seen`-set loop of
`getHighlightOrder` in `pdf_viewer.js`. -/
def dedupFirstGo (seen : List String) : List String → List String
  | [] => []
  | a :: rest =>
    if seen.contains a then dedupFirstGo seen rest
    else a :: dedupFirstGo (a :: seen) rest

/-- First-occurrence de-duplication of a list of ids, keeping the order of
first occurrences. -/
def dedupFirst (l : List String) : List String := dedupFirstGo [] l

/-- The `highlight_order` field of the payload `savePdfDocumentReview`
sends to the persistence service (`sidepanel.js` lines 1788-1792):
`Array.isArray(order) ? Array.from(new Set(order)) : []`. -/
def savePdfReviewOrderPayload (order : Option (List String)) : List String :=
  match order with
  | none => []
  | some l => dedupFirst l

/-! ### Highlight reordering (`sidepanel.js` lines 2391-2412, `pdf_viewer.js` lines 1266-1294) -/

/-- A cached highlight entry as the reordering code sees it: only its
`highlight_id` matters, `text` stands for the rest of the record. -/
structure CachedHighlight where
  highlight_id : Option String
  text : String
  deriving Repr, DecidableEq

/-- The id → highlight map built by `list.forEach((item) => { if
(item?.highlight_id) map.set(item.highlight_id, item); })`: for a given id
the *last* entry carrying it wins. -/
def mapOfHighlights (list : List CachedHighlight) (id : String) : Option CachedHighlight :=
  (list.filter (fun h => h.highlight_id == some id)).getLast?

/-- The `order.forEach` loop of `reorderHighlights`: walk the saved order,
emit the mapped highlight for each id present in the map and not yet used,
and accumulate the `used` set.  Returns (ordered highlights, final used
set). -/
def orderedWithUsed (map : String → Option CachedHighlight) :
    List String → List String → List CachedHighlight × List String
  | [], used => ([], used)
  | id :: rest, used =>
    match map id with
    | some h =>
      if used.contains id then orderedWithUsed map rest used
      else
        let r := orderedWithUsed map rest (id :: used)
        (h :: r.1, r.2)
    | none => orderedWithUsed map rest used

/-- Embeds `reorderHighlights(list, order)` of `pdf_viewer.js` (lines
1266-1294), which is the same algorithm the `PDF_REVIEW_SAVED` handler of
`sidepanel.js` (lines 2391-2412) applies to `docEntry.highlights`: ordered
ids first, then every highlight whose id is missing or unused, in original
order. -/
def reorderHighlights (list : List CachedHighlight) (order : List String) :
    List CachedHighlight :=
  if list.isEmpty then list
  else if order.isEmpty then list
  else
    let r := orderedWithUsed (mapOfHighlights list) order []
    r.1 ++ list.filter (fun h =>
      match h.highlight_id with
      | none => true
      | some id => !(r.2.contains id))

/-! ### Trajectory log (`background.js` lines 296-323, `sidepanel.js` lines 556-600) -/

/-- One trajectory entry; `id` is the dedup key, `data` stands for the
rest of the normalised record. -/
structure TrajectoryEntry where
  id : String
  data : String
  deriving Repr, DecidableEq

/-- Per-session trajectory record: `{ searchEpisodes: [], interactions: [] }`. -/
structure TrajectoryRecord where
  searchEpisodes : List TrajectoryEntry
  interactions : List TrajectoryEntry
  deriving Repr, DecidableEq

/-- Embeds `appendSearchEpisode(sessionId, entry)` of `background.js`
(lines 309-315): prepend the new entry and keep the first 50. -/
def appendSearchEpisode (entry : TrajectoryEntry) (record : TrajectoryRecord) :
    TrajectoryRecord :=
  { record with searchEpisodes := ((entry :: record.searchEpisodes).take 50) }

/-- Embeds `appendInteraction(sessionId, entry)` of `background.js`
(lines 317-323). -/
def appendInteraction (entry : TrajectoryEntry) (record : TrajectoryRecord) :
    TrajectoryRecord :=
  { record with interactions := ((entry :: record.interactions).take 50) }

/-- `record.searchEpisodes[existingIndex] = {...old, ...normalizedEntry}`:
the normalised entry carries every field, so the merged entry is the
normalised entry; only the first index `findIndex` returns is updated. -/
def updateFirstById (entry : TrajectoryEntry) : List TrajectoryEntry → List TrajectoryEntry
  | [] => []
  | e :: rest =>
    if e.id == entry.id then entry :: rest
    else e :: updateFirstById entry rest

/-- Embeds `appendTrajectorySearch(sessionId, entry)` of `sidepanel.js`
(lines 556-582, state change only): an entry whose id already exists
updates that entry in place; otherwise the entry is prepended and the list
capped at 50. -/
def appendTrajectorySearch (entry : TrajectoryEntry) (record : TrajectoryRecord) :
    TrajectoryRecord :=
  if (record.searchEpisodes.find? (fun e => e.id == entry.id)).isSome then
    { record with searchEpisodes := updateFirstById entry record.searchEpisodes }
  else
    { record with searchEpisodes := ((entry :: record.searchEpisodes).take 50) }

/-- Embeds `appendTrajectoryInteraction(sessionId, entry)` of
`sidepanel.js` (lines 584-600, state change only).  The source mutates the
found entry through `Object.assign`, which again replaces every field. -/
def appendTrajectoryInteraction (entry : TrajectoryEntry) (record : TrajectoryRecord) :
    TrajectoryRecord :=
  if (record.interactions.find? (fun e => e.id == entry.id)).isSome then
    { record with interactions := updateFirstById entry record.interactions }
  else
    { record with interactions := ((entry :: record.interactions).take 50) }

/-! ### Control Panel removal handling (`sidepanel.js` lines 1807-1883, 2161-2181) -/

/-- The observable effects of the removal handler, in emission order:
the remote `DELETE /highlights/{id}` call, runtime broadcasts, and the
user-visible notice. -/
inductive Effect where
  | apiDeleteHighlight (highlightId : String)
  | broadcast (messageType : String) (highlightId : Option String) (localId : Option String)
  | noticeInfo (text : String)
  | noticeError : Effect
  deriving Repr, DecidableEq

/-- The slice of a cached document record the removal path touches: the
cached `highlights` array and, when a `pdf_review` with an array
`highlight_order` exists, that order. -/
structure DocEntry where
  highlights : List CachedHighlight
  highlightOrder : Option (List String)
  deriving Repr, DecidableEq

/-- Embeds `pruneHighlightFromDocuments(documentUrl, highlightId, localId)`
of `sidepanel.js` (lines 2161-2181) on the document entry it resolves:
with a `highlightId`, drop every cached highlight carrying that id and
strip the id from `pdf_review.highlight_order`; without one, nothing is
filtered (both filters are guarded by `&& highlightId`). -/
def pruneHighlightFromDoc (doc : DocEntry) (highlightId : Option String) : DocEntry :=
  match highlightId with
  | none => doc
  | some h =>
    { highlights := doc.highlights.filter (fun hl => !(hl.highlight_id == some h))
      highlightOrder := doc.highlightOrder.map (fun order => order.filter (fun id => id ≠ h)) }

/-- Control Panel state relevant to one removal request: whether a session
is active, and the session cache's entry for the request's document URL
(if any). -/
structure PanelState where
  hasSession : Bool
  doc : Option DocEntry
  deriving Repr, DecidableEq

/-- A removal request payload (`HTML_HIGHLIGHT_REMOVE_REQUEST`). -/
structure RemovalRequest where
  highlight_id : Option String
  local_id : Option String
  is_pdf : Bool
  deriving Repr, DecidableEq

/-- Embeds `handleHtmlHighlightRemovalRequest(request)` of `sidepanel.js`
(lines 1807-1883) as a pure state transformer with an effect trace, with
`deleteSucceeds` standing for the outcome of the awaited
`DELETE /highlights/{id}` call.  Summary-widget updates
(`removeHighlightEntryById`, `maybeClearActiveHighlight`) are UI-local and
not part of the modelled state.  Branches:
* no session: broadcast `HTML_HIGHLIGHT_REMOVE_FAILED`, error notice;
* no `highlight_id` (never confirmed): no remote call at all, broadcast
  `HTML_HIGHLIGHT_REMOVED` (plus `PDF_HIGHLIGHT_CANCELLED` for PDF
  requests) immediately;
* `highlight_id` present: issue the delete call; on success prune the
  cached document and broadcast the removal; on failure broadcast
  `HTML_HIGHLIGHT_REMOVE_FAILED` and show the error, leaving the cache
  unchanged. -/
def handleHtmlHighlightRemovalRequest (st : PanelState) (req : RemovalRequest)
    (deleteSucceeds : Bool) : PanelState × List Effect :=
  if !st.hasSession then
    (st, [Effect.broadcast "HTML_HIGHLIGHT_REMOVE_FAILED" req.highlight_id req.local_id,
          Effect.noticeError])
  else
    match req.highlight_id with
    | none =>
      (st, [Effect.broadcast "HTML_HIGHLIGHT_REMOVED" none req.local_id]
        ++ (if req.is_pdf then [Effect.broadcast "PDF_HIGHLIGHT_CANCELLED" none req.local_id]
            else [])
        ++ [Effect.noticeInfo "Highlight removed."])
    | some h =>
      if deleteSucceeds then
        ({ st with doc := st.doc.map (fun d => pruneHighlightFromDoc d (some h)) },
         [Effect.apiDeleteHighlight h,
          Effect.broadcast "HTML_HIGHLIGHT_REMOVED" (some h) req.local_id]
          ++ (if req.is_pdf then
                [Effect.broadcast "PDF_HIGHLIGHT_CANCELLED" (some h) req.local_id]
              else [])
          ++ [Effect.noticeInfo "Highlight removed."])
      else
        (st, [Effect.apiDeleteHighlight h,
              Effect.broadcast "HTML_HIGHLIGHT_REMOVE_FAILED" (some h) req.local_id,
              Effect.noticeError])

/-! ### Capture Agent removal (`api.js` lines 657-705, 1133-1191) -/

/-- A visual mark the capture agent holds in the page (a wrapped DOM
element with `data-ea-local-id` / `data-ea-highlight-id`). -/
structure AgentMark where
  localId : Option String
  highlightId : Option String
  deriving Repr, DecidableEq

/-- Embeds the state effect of `requestHighlightRemoval(target)` of
`api.js` (lines 657-705): the matched element is unwrapped *immediately*
(optimistic delete) and its registry entry dropped, then
`CONTENT_HIGHLIGHT_REMOVE_REQUEST` is sent.  Returns the remaining visible
marks and the request payload identifiers. -/
def agentRequestRemoval (marks : List AgentMark) (target : AgentMark) :
    List AgentMark × Option String × Option String :=
  (marks.erase target, target.localId, target.highlightId)

/-- Embeds the `HTML_HIGHLIGHT_REMOVE_FAILED` branch of the capture
agent's message listener (`api.js` lines 1188-1190):

```js
} else if (message.type === "HTML_HIGHLIGHT_REMOVE_FAILED") {
  debugLog("Highlight removal failed", message.payload || {});
}
```

It only writes a debug log: the visible marks are untouched, and in
particular no previously unwrapped mark is restored. -/
def agentOnRemoveFailed (marks : List AgentMark) : List AgentMark := marks

/-! ### Spec-modelled removal matching (for comparison with `marksMatch`)

The spec describes one matching algorithm for the Overlay Engine
(priority order, first match wins): exact `highlightId`; otherwise exact
`localId` constrained to marks whose geometry origin is within a small
epsilon; otherwise exact `fingerprint`.  To express the epsilon
constraint the spec-side request carries an optional geometry origin;
the epsilon is instantiated with the 0.002 the code uses at insertion. -/

/-- A removal request as the spec's matching algorithm reads it. -/
structure SpecRemovalRequest where
  highlightId : Option String
  localId : Option String
  fingerprint : Option String
  origin : Option (ℚ × ℚ)
  deriving Repr, DecidableEq

/-- The spec's matching algorithm (spec §4.5, priority order with first
match winning), written from the spec's words, *not* from the source: it
is compared against the source's `marksMatch`. -/
def specMarksMatch (candidate : OverlayMark) (m : SpecRemovalRequest) : Bool :=
  if m.highlightId.isSome && candidate.highlightId == m.highlightId then true
  else if m.localId.isSome && candidate.localId == m.localId
      && (match m.origin with
          | none => true
          | some (ox, oy) =>
            decide (|candidate.x1 - ox| < 0.002) && decide (|candidate.y1 - oy| < 0.002)) then
    true
  else if m.fingerprint.isSome && candidate.fingerprint == m.fingerprint then true
  else false

/-- The rect mapping of the `PDF_HIGHLIGHT_CREATED` handler
(`pdf_viewer.js` lines 935-940): the payload-level `highlight_id` /
`local_id` take precedence over per-rect ids, and the colour is resolved
up front. -/
def pdfHighlightCreatedRects (hid lid : Option String) (rects : List RectPayload) :
    List RectPayload :=
  rects.map (fun r =>
    { r with
      highlightId := hid.orElse (fun _ => r.highlightId)
      localId := lid.orElse (fun _ => r.localId)
      color := some (resolveOverlayColor r.color) })

/-! ## Helper lemmas -/

/-- A successful `assocLookup` returns one of the map's values. -/
theorem assocLookup_mem_values (pairs : List (String × String)) (key v : String)
    (h : assocLookup pairs key = some v) : v ∈ pairs.map Prod.snd := by
  induction pairs with
  | nil => exact Option.noConfusion h
  | cons p rest ih =>
    obtain ⟨k, w⟩ := p
    simp only [assocLookup] at h
    split_ifs at h with hk
    · injection h with h'
      subst h'
      simp
    · exact List.mem_cons_of_mem _ (ih h)

/-- Every value the `pdf_viewer.js` alias map produces is canonical. -/
theorem pdfSentimentAliasLookup_canonical (k v : String)
    (h : pdfSentimentAliasLookup k = some v) :
    v = "thumbsup" ∨ v = "thumbsdown" ∨ v = "neutral_information" := by
  have hall : ∀ x ∈ pdfSentimentAliasPairs.map Prod.snd,
      x = "thumbsup" ∨ x = "thumbsdown" ∨ x = "neutral_information" := by decide
  exact hall v (assocLookup_mem_values _ _ _ h)

/-- Every value the `sidepanel.js` alias map produces is canonical. -/
theorem sentimentAliasLookup_canonical (k v : String)
    (h : sentimentAliasLookup k = some v) :
    v = "thumbsup" ∨ v = "thumbsdown" ∨ v = "neutral_information" := by
  have hall : ∀ x ∈ sentimentAliasPairs.map Prod.snd,
      x = "thumbsup" ∨ x = "thumbsdown" ∨ x = "neutral_information" := by decide
  exact hall v (assocLookup_mem_values _ _ _ h)

/-- Every value the legacy map produces is canonical. -/
theorem legacyPdfSentimentLookup_canonical (k v : String)
    (h : legacyPdfSentimentLookup k = some v) :
    v = "thumbsup" ∨ v = "thumbsdown" ∨ v = "neutral_information" := by
  have hall : ∀ x ∈ legacyPdfSentimentPairs.map Prod.snd,
      x = "thumbsup" ∨ x = "thumbsdown" ∨ x = "neutral_information" := by decide
  exact hall v (assocLookup_mem_values _ _ _ h)

/-- A bracket lookup that produced a *string* hit an own key of the
literal: the inherited `Object.prototype` values are not strings. -/
theorem objectLiteralGet_str (pairs : List (String × String)) (key w : String)
    (h : objectLiteralGet pairs key = some (JsVal.str w)) :
    assocLookup pairs key = some w := by
  unfold objectLiteralGet at h
  cases ha : assocLookup pairs key with
  | some v =>
    rw [ha] at h
    injection h with h1
    injection h1 with h2
    rw [h2]
  | none =>
    rw [ha] at h
    by_cases hp : (key = "constructor" ∨ key = "__proto__")
    · rw [if_pos hp] at h
      injection h with h1
      exact absurd h1 (by simp)
    · rw [if_neg hp] at h
      exact Option.noConfusion h

/-- Away from the two reachable `Object.prototype` keys, the bracket
lookup is exactly the own-key association lookup. -/
theorem objectLiteralGet_of_not_inherited (pairs : List (String × String)) (key : String)
    (h1 : key ≠ "constructor") (h2 : key ≠ "__proto__") :
    objectLiteralGet pairs key = (assocLookup pairs key).map JsVal.str := by
  unfold objectLiteralGet
  cases assocLookup pairs key with
  | some v => rfl
  | none =>
    rw [if_neg (by simp [h1, h2])]
    rfl

/-- Whenever `normalisePdfSentimentValue` returns a *string*, that string
is canonical (the non-canonical escapes are the non-string inherited
values). -/
theorem normalisePdfSentimentValue_str_canonical (v : Option String) (s : String)
    (h : normalisePdfSentimentValue v = JsVal.str s) :
    s = "thumbsup" ∨ s = "thumbsdown" ∨ s = "neutral_information" := by
  cases v with
  | none =>
    simp only [normalisePdfSentimentValue] at h
    injection h with h0
    left
    rw [← h0]
    rfl
  | some s0 =>
    simp only [normalisePdfSentimentValue] at h
    by_cases h1 : jsToLower (jsTrim s0) = ""
    · rw [if_pos h1] at h
      injection h with h0
      left
      rw [← h0]
      rfl
    · rw [if_neg h1] at h
      cases hget : objectLiteralGet pdfSentimentAliasPairs (jsToLower (jsTrim s0)) with
      | some val =>
        rw [hget] at h
        subst h
        exact pdfSentimentAliasLookup_canonical _ _ (objectLiteralGet_str _ _ _ hget)
      | none =>
        rw [hget] at h
        by_cases h2 : isCanonicalSentiment (jsToLower (jsTrim s0)) = true
        · rw [if_pos h2] at h
          injection h with h0
          rw [← h0]
          simp only [isCanonicalSentiment, Bool.or_eq_true, decide_eq_true_eq] at h2
          tauto
        · rw [if_neg h2] at h
          injection h with h0
          left
          rw [← h0]
          rfl

/-- Whenever `normaliseSentimentValue` returns a *string*, that string is
canonical. -/
theorem normaliseSentimentValue_str_canonical (v : Option String) (s : String)
    (h : normaliseSentimentValue v = some (JsVal.str s)) :
    s = "thumbsup" ∨ s = "thumbsdown" ∨ s = "neutral_information" := by
  cases v with
  | none => simp [normaliseSentimentValue] at h
  | some s0 =>
    simp only [normaliseSentimentValue] at h
    by_cases h1 : jsToLower (jsTrim s0) = ""
    · rw [if_pos h1] at h
      exact Option.noConfusion h
    · rw [if_neg h1] at h
      by_cases h2 : sentimentCanonicalsHas (jsToLower (jsTrim s0)) = true
      · rw [if_pos h2] at h
        injection h with h0
        injection h0 with h0'
        rw [← h0']
        simp only [sentimentCanonicalsHas, Bool.or_eq_true, decide_eq_true_eq] at h2
        tauto
      · rw [if_neg h2] at h
        cases hget : objectLiteralGet sentimentAliasPairs (jsToLower (jsTrim s0)) with
        | some val =>
          rw [hget] at h
          injection h with h0
          subst h0
          exact sentimentAliasLookup_canonical _ _ (objectLiteralGet_str _ _ _ hget)
        | none =>
          rw [hget] at h
          exact legacyPdfSentimentLookup_canonical _ _ (objectLiteralGet_str _ _ _ h)

/-- Whenever `ensurePdfSentiment` returns a *string*, that string is
canonical. -/
theorem ensurePdfSentiment_str_canonical (v : Option String) (s : String)
    (h : ensurePdfSentiment v = JsVal.str s) :
    s = "thumbsup" ∨ s = "thumbsdown" ∨ s = "neutral_information" := by
  unfold ensurePdfSentiment at h
  cases hn : normaliseSentimentValue v with
  | none =>
    rw [hn, Option.getD_none] at h
    injection h with h0
    left
    rw [← h0]
    rfl
  | some val =>
    rw [hn, Option.getD_some] at h
    subst h
    exact normaliseSentimentValue_str_canonical v s hn

/-- Off the two inherited-property keys, `normalisePdfSentimentValue` is
total onto the three canonical strings. -/
theorem normalisePdfSentimentValue_total_of_not_inherited (s : String)
    (h1 : jsToLower (jsTrim s) ≠ "constructor")
    (h2 : jsToLower (jsTrim s) ≠ "__proto__") :
    normalisePdfSentimentValue (some s) = JsVal.str "thumbsup"
      ∨ normalisePdfSentimentValue (some s) = JsVal.str "thumbsdown"
      ∨ normalisePdfSentimentValue (some s) = JsVal.str "neutral_information" := by
  simp only [normalisePdfSentimentValue]
  by_cases he : jsToLower (jsTrim s) = ""
  · rw [if_pos he]
    left
    rfl
  · rw [if_neg he, objectLiteralGet_of_not_inherited _ _ h1 h2]
    cases ha : assocLookup pdfSentimentAliasPairs (jsToLower (jsTrim s)) with
    | some w =>
      simp only [ha, Option.map_some']
      rcases pdfSentimentAliasLookup_canonical _ _ ha with h | h | h <;> simp [h]
    | none =>
      simp only [ha, Option.map_none']
      by_cases hc : isCanonicalSentiment (jsToLower (jsTrim s)) = true
      · rw [if_pos hc]
        simp only [isCanonicalSentiment, Bool.or_eq_true, decide_eq_true_eq] at hc
        rcases hc with (h | h) | h <;> simp [h]
      · rw [if_neg hc]
        left
        rfl

/-- Off the two inherited-property keys, `ensurePdfSentiment` is total
onto the three canonical strings. -/
theorem ensurePdfSentiment_total_of_not_inherited (s : String)
    (h1 : jsToLower (jsTrim s) ≠ "constructor")
    (h2 : jsToLower (jsTrim s) ≠ "__proto__") :
    ensurePdfSentiment (some s) = JsVal.str "thumbsup"
      ∨ ensurePdfSentiment (some s) = JsVal.str "thumbsdown"
      ∨ ensurePdfSentiment (some s) = JsVal.str "neutral_information" := by
  unfold ensurePdfSentiment
  simp only [normaliseSentimentValue]
  by_cases he : jsToLower (jsTrim s) = ""
  · rw [if_pos he]
    left
    rfl
  · rw [if_neg he]
    by_cases hc : sentimentCanonicalsHas (jsToLower (jsTrim s)) = true
    · rw [if_pos hc]
      simp only [sentimentCanonicalsHas, Bool.or_eq_true, decide_eq_true_eq] at hc
      rcases hc with (h | h) | h <;> simp [h]
    · rw [if_neg hc, objectLiteralGet_of_not_inherited _ _ h1 h2]
      cases ha : assocLookup sentimentAliasPairs (jsToLower (jsTrim s)) with
      | some w =>
        simp only [ha, Option.map_some']
        rcases sentimentAliasLookup_canonical _ _ ha with h | h | h <;> simp [h]
      | none =>
        simp only [ha, Option.map_none']
        rw [objectLiteralGet_of_not_inherited _ _ h1 h2]
        cases hb : assocLookup legacyPdfSentimentPairs (jsToLower (jsTrim s)) with
        | some w =>
          simp only [hb, Option.map_some']
          rcases legacyPdfSentimentLookup_canonical _ _ hb with h | h | h <;> simp [h]
        | none =>
          simp only [hb, Option.map_none']
          left
          rfl

/-! ## Claims -/

/-- **C10 counterexample.**  The claim asserts a closed canonical
codomain for *every* input, with the default for unrecognised strings.
The alias maps are plain object literals read with a bare bracket lookup
and a truthiness test, so an input whose trimmed lower-cased key names an
`Object.prototype` property — `"constructor"` or `"__proto__"` are the
all-lowercase ones — returns that inherited truthy non-string value
instead: `normalisePdfSentimentValue("constructor")` is
`Object.prototype.constructor`, not `"thumbsup"`, and
`ensurePdfSentiment` passes the truthy value through rather than
defaulting. -/
theorem c10_counterexample :
    normalisePdfSentimentValue (some "constructor") = JsVal.inherited "constructor"
    ∧ normalisePdfSentimentValue (some "constructor") ≠ JsVal.str "thumbsup"
    ∧ normalisePdfSentimentValue (some "constructor") ≠ JsVal.str "thumbsdown"
    ∧ normalisePdfSentimentValue (some "constructor") ≠ JsVal.str "neutral_information"
    ∧ normaliseSentimentValue (some "constructor") = some (JsVal.inherited "constructor")
    ∧ ensurePdfSentiment (some "constructor") = JsVal.inherited "constructor"
    ∧ normalisePdfSentimentValue (some "__proto__") = JsVal.inherited "__proto__"
    ∧ ensurePdfSentiment (some "__proto__") = JsVal.inherited "__proto__" := by
  decide

/-- **C10 amended.**  Except for inputs whose trimmed lower-cased key
names an inherited `Object.prototype` property (`"constructor"` or
`"__proto__"`, on which the bare bracket lookup returns a truthy
non-string value that both normalisers pass through), sentiment
normalisation has the closed canonical codomain
`{thumbsup, thumbsdown, neutral_information}`; `null`, empty and
unrecognised inputs give the default `thumbsup`; every *string* either
function returns is canonical; and normalisation is idempotent on its
string outputs. -/
theorem c10_sentiment_normalisation_amended :
    (∀ s : String,
      jsToLower (jsTrim s) ≠ "constructor" → jsToLower (jsTrim s) ≠ "__proto__" →
      (ensurePdfSentiment (some s) = JsVal.str "thumbsup"
        ∨ ensurePdfSentiment (some s) = JsVal.str "thumbsdown"
        ∨ ensurePdfSentiment (some s) = JsVal.str "neutral_information")
      ∧ (normalisePdfSentimentValue (some s) = JsVal.str "thumbsup"
        ∨ normalisePdfSentimentValue (some s) = JsVal.str "thumbsdown"
        ∨ normalisePdfSentimentValue (some s) = JsVal.str "neutral_information"))
    ∧ ensurePdfSentiment none = JsVal.str "thumbsup"
    ∧ ensurePdfSentiment (some "") = JsVal.str "thumbsup"
    ∧ ensurePdfSentiment (some "totally unrecognised input") = JsVal.str "thumbsup"
    ∧ normalisePdfSentimentValue none = JsVal.str "thumbsup"
    ∧ normalisePdfSentimentValue (some "") = JsVal.str "thumbsup"
    ∧ normalisePdfSentimentValue (some "totally unrecognised input") = JsVal.str "thumbsup"
    ∧ (∀ (v : Option String) (s : String), ensurePdfSentiment v = JsVal.str s →
        (s = "thumbsup" ∨ s = "thumbsdown" ∨ s = "neutral_information")
        ∧ ensurePdfSentiment (some s) = JsVal.str s)
    ∧ (∀ (v : Option String) (s : String),
        normalisePdfSentimentValue v = JsVal.str s →
        (s = "thumbsup" ∨ s = "thumbsdown" ∨ s = "neutral_information")
        ∧ normalisePdfSentimentValue (some s) = JsVal.str s) := by
  refine ⟨fun s h1 h2 => ⟨ensurePdfSentiment_total_of_not_inherited s h1 h2,
      normalisePdfSentimentValue_total_of_not_inherited s h1 h2⟩,
    by decide, by decide, by decide, by decide, by decide, by decide, ?_, ?_⟩
  · intro v s h
    have hc := ensurePdfSentiment_str_canonical v s h
    refine ⟨hc, ?_⟩
    rcases hc with h0 | h0 | h0 <;> rw [h0] <;> decide
  · intro v s h
    have hc := normalisePdfSentimentValue_str_canonical v s h
    refine ⟨hc, ?_⟩
    rcases hc with h0 | h0 | h0 <;> rw [h0] <;> decide

/-- Witness for the amended C10: the alias input `"Thumbs Up"`, whose key
is far from the inherited-property names. -/
theorem c10_sentiment_normalisation_amended_witness :
    jsToLower (jsTrim "Thumbs Up") ≠ "constructor"
    ∧ jsToLower (jsTrim "Thumbs Up") ≠ "__proto__"
    ∧ ((ensurePdfSentiment (some "Thumbs Up") = JsVal.str "thumbsup"
        ∨ ensurePdfSentiment (some "Thumbs Up") = JsVal.str "thumbsdown"
        ∨ ensurePdfSentiment (some "Thumbs Up") = JsVal.str "neutral_information")
      ∧ (normalisePdfSentimentValue (some "Thumbs Up") = JsVal.str "thumbsup"
        ∨ normalisePdfSentimentValue (some "Thumbs Up") = JsVal.str "thumbsdown"
        ∨ normalisePdfSentimentValue (some "Thumbs Up") = JsVal.str "neutral_information")) :=
  ⟨by decide, by decide,
    c10_sentiment_normalisation_amended.1 "Thumbs Up" (by decide) (by decide)⟩

/-- `updateFirstById` preserves the list length. -/
theorem updateFirstById_length (e : TrajectoryEntry) (l : List TrajectoryEntry) :
    (updateFirstById e l).length = l.length := by
  induction l with
  | nil => rfl
  | cons a rest ih =>
    simp only [updateFirstById]
    split_ifs <;> simp [ih]

/-- When some entry of `l` carries `e`'s id, the updated list contains `e`. -/
theorem mem_updateFirstById (e : TrajectoryEntry) (l : List TrajectoryEntry)
    (h : (l.find? (fun x => x.id == e.id)).isSome) : e ∈ updateFirstById e l := by
  induction l with
  | nil => simp [List.find?] at h
  | cons a rest ih =>
    simp only [updateFirstById]
    by_cases ha : (a.id == e.id) = true
    · simp [ha]
    · rw [if_neg ha]
      rw [List.find?] at h
      rw [Bool.of_not_eq_true ha] at h
      exact List.mem_cons_of_mem _ (ih h)

/-- **C9.**  The per-session trajectory log is capped at 50 entries on
both sides of the code: after every append, the stored `searchEpisodes`
and `interactions` lists hold at most 50 entries; the appended entry is
kept (at the head for fresh ids), and entries are dropped only from the
old end (the result is a prefix of the new-entry-first list).
For the `sidepanel.js` variants the bound is an invariant: an append onto
a list of at most 50 entries yields at most 50 entries (an existing id is
updated in place, a fresh id is prepended and the list truncated to 50). -/
theorem c9_trajectory_log_cap :
    (∀ (e : TrajectoryEntry) (r : TrajectoryRecord),
      (appendSearchEpisode e r).searchEpisodes.length ≤ 50
      ∧ (appendSearchEpisode e r).searchEpisodes.head? = some e
      ∧ (appendSearchEpisode e r).searchEpisodes <+: e :: r.searchEpisodes
      ∧ (appendSearchEpisode e r).interactions = r.interactions)
    ∧ (∀ (e : TrajectoryEntry) (r : TrajectoryRecord),
      (appendInteraction e r).interactions.length ≤ 50
      ∧ (appendInteraction e r).interactions.head? = some e
      ∧ (appendInteraction e r).interactions <+: e :: r.interactions
      ∧ (appendInteraction e r).searchEpisodes = r.searchEpisodes)
    ∧ (∀ (e : TrajectoryEntry) (r : TrajectoryRecord),
      r.searchEpisodes.length ≤ 50 →
      (appendTrajectorySearch e r).searchEpisodes.length ≤ 50
      ∧ e ∈ (appendTrajectorySearch e r).searchEpisodes
      ∧ (r.searchEpisodes.find? (fun x => x.id == e.id) = none →
          (appendTrajectorySearch e r).searchEpisodes <+: e :: r.searchEpisodes))
    ∧ (∀ (e : TrajectoryEntry) (r : TrajectoryRecord),
      r.interactions.length ≤ 50 →
      (appendTrajectoryInteraction e r).interactions.length ≤ 50
      ∧ e ∈ (appendTrajectoryInteraction e r).interactions
      ∧ (r.interactions.find? (fun x => x.id == e.id) = none →
          (appendTrajectoryInteraction e r).interactions <+: e :: r.interactions)) := by
  refine ⟨fun e r => ⟨?_, ?_, ?_, rfl⟩, fun e r => ⟨?_, ?_, ?_, rfl⟩,
    fun e r hlen => ?_, fun e r hlen => ?_⟩
  · simp [appendSearchEpisode]
  · simp [appendSearchEpisode]
  · exact List.take_prefix 50 _
  · simp [appendInteraction]
  · simp [appendInteraction]
  · exact List.take_prefix 50 _
  · unfold appendTrajectorySearch
    by_cases hfound : (r.searchEpisodes.find? (fun x => x.id == e.id)).isSome
    · rw [if_pos hfound]
      refine ⟨?_, mem_updateFirstById e _ hfound, ?_⟩
      · simpa [updateFirstById_length] using hlen
      · intro hnone
        rw [hnone] at hfound
        simp at hfound
    · rw [if_neg hfound]
      refine ⟨by simp, ?_, fun _ => List.take_prefix 50 _⟩
      have : (e :: r.searchEpisodes).take 50 = e :: r.searchEpisodes.take 49 := rfl
      simp [this]
  · unfold appendTrajectoryInteraction
    by_cases hfound : (r.interactions.find? (fun x => x.id == e.id)).isSome
    · rw [if_pos hfound]
      refine ⟨?_, mem_updateFirstById e _ hfound, ?_⟩
      · simpa [updateFirstById_length] using hlen
      · intro hnone
        rw [hnone] at hfound
        simp at hfound
    · rw [if_neg hfound]
      refine ⟨by simp, ?_, fun _ => List.take_prefix 50 _⟩
      have : (e :: r.interactions).take 50 = e :: r.interactions.take 49 := rfl
      simp [this]

/-- Witness for C9 at a concrete input: appending the episode `s1` to a
record holding a single unrelated episode. -/
theorem c9_trajectory_log_cap_witness :
    let e : TrajectoryEntry := ⟨"s1", "query"⟩
    let r : TrajectoryRecord := ⟨[⟨"s0", "older"⟩], []⟩
    r.searchEpisodes.length ≤ 50
    ∧ ((appendTrajectorySearch e r).searchEpisodes.length ≤ 50
      ∧ e ∈ (appendTrajectorySearch e r).searchEpisodes
      ∧ (r.searchEpisodes.find? (fun x => x.id == e.id) = none →
          (appendTrajectorySearch e r).searchEpisodes <+: e :: r.searchEpisodes)) :=
  ⟨by decide, c9_trajectory_log_cap.2.2.1 ⟨"s1", "query"⟩ ⟨[⟨"s0", "older"⟩], []⟩ (by decide)⟩

/-! ### De-duplication lemmas for C8 -/

/-- `dedupFirstGo` yields a sublist of its input. -/
theorem dedupFirstGo_sublist (seen l : List String) : List.Sublist (dedupFirstGo seen l) l := by
  induction l generalizing seen with
  | nil => simp [dedupFirstGo]
  | cons a rest ih =>
    simp only [dedupFirstGo]
    split_ifs with h
    · exact (ih seen).trans (List.sublist_cons_self a rest)
    · exact (ih (a :: seen)).cons₂ a

/-- Membership in `dedupFirstGo`: present in the input and not already
seen. -/
theorem mem_dedupFirstGo (x : String) (seen l : List String) :
    x ∈ dedupFirstGo seen l ↔ (x ∈ l ∧ x ∉ seen) := by
  induction l generalizing seen with
  | nil => simp [dedupFirstGo]
  | cons a rest ih =>
    simp only [dedupFirstGo]
    by_cases h : seen.contains a
    · have ha : a ∈ seen := by simpa using h
      rw [if_pos h, ih seen]
      simp only [List.mem_cons]
      constructor
      · rintro ⟨hx, hs⟩
        exact ⟨Or.inr hx, hs⟩
      · rintro ⟨hx | hx, hs⟩
        · subst hx; exact absurd ha hs
        · exact ⟨hx, hs⟩
    · have ha : a ∉ seen := by simpa using h
      rw [if_neg h]
      by_cases hxa : x = a
      · subst hxa
        simp [ha]
      · simp only [List.mem_cons, hxa, false_or]
        rw [ih (a :: seen)]
        simp [List.mem_cons, hxa]

/-- `dedupFirstGo` yields a list without duplicates. -/
theorem dedupFirstGo_nodup (seen l : List String) : (dedupFirstGo seen l).Nodup := by
  induction l generalizing seen with
  | nil => simp [dedupFirstGo]
  | cons a rest ih =>
    simp only [dedupFirstGo]
    split_ifs with h
    · exact ih seen
    · refine List.nodup_cons.mpr ⟨?_, ih (a :: seen)⟩
      intro hmem
      exact ((mem_dedupFirstGo a (a :: seen) rest).mp hmem).2 (List.mem_cons_self a seen)

/-- Everything preceding `x` in the de-duplicated list already preceded
the first occurrence of `x` in the input: the first occurrence is the one
kept. -/
theorem dedupFirstGo_takeWhile (x : String) (seen l : List String) (hx : x ∉ seen) :
    List.Sublist ((dedupFirstGo seen l).takeWhile (fun y => y != x))
      (l.takeWhile (fun y => y != x)) := by
  induction l generalizing seen with
  | nil => simp [dedupFirstGo]
  | cons a rest ih =>
    simp only [dedupFirstGo]
    by_cases h : seen.contains a
    · have ha : a ∈ seen := by simpa using h
      have hax : (a != x) = true := by
        simp only [bne_iff_ne, ne_eq]
        intro hax
        subst hax
        exact hx ha
      rw [if_pos h, List.takeWhile_cons, hax]
      simp only [if_pos rfl]
      exact (ih seen hx).trans (List.sublist_cons_self a _)
    · rw [if_neg h]
      by_cases hax : a = x
      · subst hax
        simp [List.takeWhile_cons]
      · have hax' : (a != x) = true := by simpa [bne_iff_ne]
        rw [List.takeWhile_cons, List.takeWhile_cons, hax']
        simp only [if_pos rfl]
        refine List.Sublist.cons₂ a (ih (a :: seen) ?_)
        simp only [List.mem_cons, not_or]
        exact ⟨fun hcontra => hax hcontra.symm, hx⟩

/-- **C8.**  `savePdfDocumentReview` de-duplicates the supplied highlight
order before persisting (`Array.from(new Set(order))`): the persisted
`highlight_order` contains each id at most once, keeps first occurrences
(everything preceding `x` in the output preceded `x`'s first occurrence
in the input), preserves the relative order of the kept ids (sublist),
loses no id, and a non-array order is persisted as `[]`. -/
theorem c8_save_review_dedup :
    (∀ l : List String,
      savePdfReviewOrderPayload (some l) = dedupFirst l
      ∧ (∀ x, (dedupFirst l).count x ≤ 1)
      ∧ List.Sublist (dedupFirst l) l
      ∧ (∀ x, x ∈ dedupFirst l ↔ x ∈ l)
      ∧ (∀ x, List.Sublist ((dedupFirst l).takeWhile (fun y => y != x))
            (l.takeWhile (fun y => y != x))))
    ∧ savePdfReviewOrderPayload none = [] := by
  refine ⟨fun l => ⟨rfl, ?_, dedupFirstGo_sublist [] l, ?_, ?_⟩, rfl⟩
  · exact List.nodup_iff_count_le_one.mp (dedupFirstGo_nodup [] l)
  · intro x
    rw [dedupFirst, mem_dedupFirstGo]
    simp
  · intro x
    exact dedupFirstGo_takeWhile x [] l (by simp)

/-- After pruning with a `highlightId`, no cached highlight carries it. -/
theorem pruneHighlightFromDoc_highlights (doc : DocEntry) (hid : String) :
    ∀ hl ∈ (pruneHighlightFromDoc doc (some hid)).highlights,
      hl.highlight_id ≠ some hid := by
  intro hl hmem hcontra
  simp only [pruneHighlightFromDoc, List.mem_filter] at hmem
  rcases hmem with ⟨-, hpred⟩
  rw [hcontra] at hpred
  simp at hpred

/-- After pruning with a `highlightId`, the review order no longer
mentions it. -/
theorem pruneHighlightFromDoc_order (doc : DocEntry) (hid : String) (ord : List String)
    (hord : (pruneHighlightFromDoc doc (some hid)).highlightOrder = some ord) :
    hid ∉ ord := by
  simp only [pruneHighlightFromDoc] at hord
  cases horig : doc.highlightOrder with
  | none =>
    rw [horig] at hord
    exact absurd hord (by simp)
  | some ord0 =>
    rw [horig] at hord
    have hstep : (some ord0).map (fun o => o.filter (fun id => id ≠ hid))
        = some (ord0.filter (fun id => id ≠ hid)) := rfl
    rw [hstep] at hord
    injection hord with h'
    subst h'
    intro hmem
    simp [List.mem_filter] at hmem

/-- **C6.**  With an active session, a removal request without a
`highlightId` (never-confirmed highlight) is resolved locally: no
`DELETE` call is issued (whatever the remote would have answered) and the
`HTML_HIGHLIGHT_REMOVED` broadcast is emitted immediately, the cache
untouched.  With a `highlightId` and a successful delete, the trace
starts with the `DELETE /highlights/{id}` call, the removal broadcast
follows it, and the document's cached `highlights` array and
`pdf_review.highlight_order` are pruned of that highlight. -/
theorem c6_removal_request_paths (st : PanelState) (req : RemovalRequest)
    (hs : st.hasSession = true) :
    (req.highlight_id = none →
      ∀ d : Bool,
        (handleHtmlHighlightRemovalRequest st req d).1 = st
        ∧ (∀ hid, Effect.apiDeleteHighlight hid ∉ (handleHtmlHighlightRemovalRequest st req d).2)
        ∧ (handleHtmlHighlightRemovalRequest st req d).2.head?
            = some (Effect.broadcast "HTML_HIGHLIGHT_REMOVED" none req.local_id))
    ∧ (∀ hid, req.highlight_id = some hid →
        (handleHtmlHighlightRemovalRequest st req true).2.head?
            = some (Effect.apiDeleteHighlight hid)
        ∧ Effect.broadcast "HTML_HIGHLIGHT_REMOVED" (some hid) req.local_id
            ∈ (handleHtmlHighlightRemovalRequest st req true).2
        ∧ (handleHtmlHighlightRemovalRequest st req true).1.doc
            = st.doc.map (fun doc => pruneHighlightFromDoc doc (some hid))
        ∧ (∀ doc, st.doc = some doc →
            ∃ doc', (handleHtmlHighlightRemovalRequest st req true).1.doc = some doc'
              ∧ (∀ hl ∈ doc'.highlights, hl.highlight_id ≠ some hid)
              ∧ (∀ ord, doc'.highlightOrder = some ord → hid ∉ ord))) := by
  constructor
  · intro hnone d
    simp only [handleHtmlHighlightRemovalRequest, hs, Bool.not_true, Bool.false_eq_true,
      if_false, hnone]
    refine ⟨by trivial, ?_, ?_⟩
    · intro hid
      by_cases hp : req.is_pdf <;> simp [hp]
    · by_cases hp : req.is_pdf <;> simp [hp]
  · intro hid hsome
    simp only [handleHtmlHighlightRemovalRequest, hs, Bool.not_true, Bool.false_eq_true,
      if_false, hsome, if_pos]
    refine ⟨by by_cases hp : req.is_pdf <;> simp [hp],
      by by_cases hp : req.is_pdf <;> simp [hp], by trivial, ?_⟩
    intro doc hdoc
    refine ⟨pruneHighlightFromDoc doc (some hid), by rw [hdoc]; rfl,
      pruneHighlightFromDoc_highlights doc hid,
      pruneHighlightFromDoc_order doc hid⟩

/-- Witness for C6 at concrete inputs: a session cache holding one
document with one confirmed highlight `h1` listed in the review order. -/
theorem c6_removal_request_paths_witness :
    let st : PanelState := ⟨true, some ⟨[⟨some "h1", "text"⟩], some ["h1", "h2"]⟩⟩
    let req : RemovalRequest := ⟨some "h1", some "l1", true⟩
    (req.highlight_id = none →
      ∀ d : Bool,
        (handleHtmlHighlightRemovalRequest st req d).1 = st
        ∧ (∀ hid, Effect.apiDeleteHighlight hid ∉ (handleHtmlHighlightRemovalRequest st req d).2)
        ∧ (handleHtmlHighlightRemovalRequest st req d).2.head?
            = some (Effect.broadcast "HTML_HIGHLIGHT_REMOVED" none req.local_id))
    ∧ (∀ hid, req.highlight_id = some hid →
        (handleHtmlHighlightRemovalRequest st req true).2.head?
            = some (Effect.apiDeleteHighlight hid)
        ∧ Effect.broadcast "HTML_HIGHLIGHT_REMOVED" (some hid) req.local_id
            ∈ (handleHtmlHighlightRemovalRequest st req true).2
        ∧ (handleHtmlHighlightRemovalRequest st req true).1.doc
            = st.doc.map (fun doc => pruneHighlightFromDoc doc (some hid))
        ∧ (∀ doc, st.doc = some doc →
            ∃ doc', (handleHtmlHighlightRemovalRequest st req true).1.doc = some doc'
              ∧ (∀ hl ∈ doc'.highlights, hl.highlight_id ≠ some hid)
              ∧ (∀ ord, doc'.highlightOrder = some ord → hid ∉ ord))) :=
  c6_removal_request_paths ⟨true, some ⟨[⟨some "h1", "text"⟩], some ["h1", "h2"]⟩⟩
    ⟨some "h1", some "l1", true⟩ rfl

/-- **C7 counterexample.**  The claim says a failed remote delete leaves
the visual mark in place in the capture agent's page.  On the code it
does not: `requestHighlightRemoval` unwraps the element *before* the
request is sent, and the `HTML_HIGHLIGHT_REMOVE_FAILED` branch of the
agent's listener only logs.  Concretely: the page shows one mark
(`localId l1`, `highlightId h1`); the user removes it, the control-panel
delete fails (trace: `DELETE h1`, `HTML_HIGHLIGHT_REMOVE_FAILED`
broadcast, error notice), and after the agent handles the failure the
mark is still gone. -/
theorem c7_counterexample :
    let target : AgentMark := ⟨some "l1", some "h1"⟩
    let afterRequest := (agentRequestRemoval [target] target).1
    afterRequest = []
    ∧ agentOnRemoveFailed afterRequest = []
    ∧ target ∉ agentOnRemoveFailed afterRequest
    ∧ (handleHtmlHighlightRemovalRequest ⟨true, none⟩ ⟨some "h1", some "l1", false⟩ false).2
        = [Effect.apiDeleteHighlight "h1",
          Effect.broadcast "HTML_HIGHLIGHT_REMOVE_FAILED" (some "h1") (some "l1"),
          Effect.noticeError]
    ∧ (handleHtmlHighlightRemovalRequest ⟨true, none⟩ ⟨some "h1", some "l1", false⟩ false).1
        = ⟨true, none⟩ := by
  refine ⟨by decide, by decide, by decide, ?_, ?_⟩ <;> rfl

/-- **C7 amended.**  If the remote delete for a confirmed highlight
fails, the error is reported to the user (error notice and
`HTML_HIGHLIGHT_REMOVE_FAILED` broadcast) and the authoritative cache
keeps the highlight; but the visual mark is *not* left in place: the
capture agent already unwrapped it optimistically when the removal was
requested (`agentRequestRemoval` erases the mark), and the failure
handler leaves the agent's marks exactly as they are, restoring
nothing. -/
theorem c7_failed_removal_amended (st : PanelState) (req : RemovalRequest)
    (hid : String) (hs : st.hasSession = true) (hh : req.highlight_id = some hid) :
    (∀ marks : List AgentMark, agentOnRemoveFailed marks = marks)
    ∧ (∀ marks target, (agentRequestRemoval marks target).1 = marks.erase target)
    ∧ (handleHtmlHighlightRemovalRequest st req false).1 = st
    ∧ Effect.noticeError ∈ (handleHtmlHighlightRemovalRequest st req false).2
    ∧ Effect.broadcast "HTML_HIGHLIGHT_REMOVE_FAILED" (some hid) req.local_id
        ∈ (handleHtmlHighlightRemovalRequest st req false).2 := by
  refine ⟨fun _ => rfl, fun _ _ => rfl, ?_, ?_, ?_⟩ <;>
    simp [handleHtmlHighlightRemovalRequest, hs, hh]

/-- Witness for the amended C7 at a concrete input. -/
theorem c7_failed_removal_amended_witness :
    let st : PanelState := ⟨true, some ⟨[⟨some "h1", "text"⟩], none⟩⟩
    let req : RemovalRequest := ⟨some "h1", some "l1", false⟩
    (∀ marks : List AgentMark, agentOnRemoveFailed marks = marks)
    ∧ (∀ marks target, (agentRequestRemoval marks target).1 = marks.erase target)
    ∧ (handleHtmlHighlightRemovalRequest st req false).1 = st
    ∧ Effect.noticeError ∈ (handleHtmlHighlightRemovalRequest st req false).2
    ∧ Effect.broadcast "HTML_HIGHLIGHT_REMOVE_FAILED" (some "h1") req.local_id
        ∈ (handleHtmlHighlightRemovalRequest st req false).2 :=
  c7_failed_removal_amended ⟨true, some ⟨[⟨some "h1", "text"⟩], none⟩⟩
    ⟨some "h1", some "l1", false⟩ "h1" rfl rfl

/-- **C1 counterexample.**  The claim describes removal matching as the
spec's priority algorithm: exact `highlightId`, else exact `localId`
constrained to a geometry-origin epsilon, else exact `fingerprint`.  The
code's `marksMatch` diverges from it on both non-`highlightId` criteria:

* epsilon: a request carrying only `localId = "l1"` (spec-side with
  geometry origin `(0.1, 0.1)`) and a mark with `localId = "l1"` at
  origin `(0.9, 0.9)` — far outside any small epsilon — is *matched* by
  `marksMatch` (and `removeMarksMatching` deletes the mark), while the
  spec's algorithm rejects it;
* fingerprint fallback: a request with a non-matching
  `highlightId = "h9"`, no `localId` and `fingerprint = "f"` against a
  mark with `highlightId = "h2"`, `fingerprint = "f"` is rejected by
  `marksMatch` (the code consults the fingerprint only when the request
  carries *neither* id), while the spec's fall-through matches it. -/
theorem c1_counterexample :
    let cFar : OverlayMark := ⟨0.9, 0.9, 0.95, 0.92, "neutral", none, some "l1", none⟩
    let kFar : MatchKey := ⟨none, some "l1", none⟩
    let rFar : SpecRemovalRequest := ⟨none, some "l1", none, some (0.1, 0.1)⟩
    let cGate : OverlayMark := ⟨0, 0, 0, 0, "neutral", some "f", none, some "h2"⟩
    let kGate : MatchKey := ⟨some "h9", none, some "f"⟩
    let rGate : SpecRemovalRequest := ⟨some "h9", none, some "f", none⟩
    marksMatch cFar kFar = true
    ∧ (removeMarksMatching [cFar] kFar).1 = []
    ∧ specMarksMatch cFar rFar = false
    ∧ marksMatch cGate kGate = false
    ∧ specMarksMatch cGate rGate = true := by
  refine ⟨by decide, by decide, ?_, by decide, by decide⟩
  simp only [specMarksMatch]
  norm_num
  rw [abs_of_nonneg (by norm_num : (0:ℚ) ≤ 4/5)]
  norm_num

/-- **C1 amended.**  What `marksMatch` actually implements: a removal /
click request matches a mark iff its `highlightId` matches exactly, or
its `localId` matches exactly — with *no* geometry constraint (removal
requests carry no geometry; the 0.002 origin epsilon applies only to
insertion merging in `addOverlayHighlights`) — or, only when the request
carries *neither* a `highlightId` nor a `localId`, its `fingerprint`
matches exactly.  The claim's "in particular" holds: on any page mark
list, a removal request carrying only `highlightId = "h1"` removes
exactly the marks whose `highlightId` is `"h1"`; a different mark whose
`localId` is `"l1"` (or anything else) is never touched by it. -/
theorem c1_removal_matching_amended :
    (∀ (c : OverlayMark) (m : MatchKey),
      marksMatch c m = true ↔
        ((∃ h, m.highlightId = some h ∧ c.highlightId = some h)
         ∨ (∃ l, m.localId = some l ∧ c.localId = some l)
         ∨ (m.highlightId = none ∧ m.localId = none
            ∧ ∃ f, m.fingerprint = some f ∧ c.fingerprint = some f)))
    ∧ (∀ marks : List OverlayMark,
        (removeMarksMatching marks ⟨some "h1", none, none⟩).1
          = marks.filter (fun c => !(c.highlightId == some "h1"))
        ∧ (removeMarksMatching marks ⟨some "h1", none, none⟩).2
          = marks.filter (fun c => c.highlightId == some "h1")) := by
  constructor
  · intro c m
    obtain ⟨mh, ml, mf⟩ := m
    cases mh <;> cases ml <;> cases mf <;> simp [marksMatch]
  · intro marks
    have hpt : ∀ c ∈ marks,
        marksMatch c ⟨some "h1", none, none⟩ = (c.highlightId == some "h1") := by
      intro c _
      simp [marksMatch]
    constructor
    · exact List.filter_congr (fun c hc => by rw [hpt c hc])
    · exact List.filter_congr (fun c hc => hpt c hc)

/-- **C5 counterexample.**  The claim says that for quote selectors the
fingerprint key is derived from `(exact, prefix, suffix)` and that equal
fingerprints identify the same candidate highlight.  In the code,
`fingerprintFromSelector` is derived *only* from the first rect: a quote
selector has no `rects`, so it gets no fingerprint at all (`null`), and
two quote selectors with different `exact` texts share that `null`
fingerprint while being different candidates.  (The
`(text, prefix, suffix)` tuple feeds the capture agent's
duplicate-*selection* signature in `api.js`, not the fingerprint.) -/
theorem c5_counterexample :
    let q1 : Selector := ⟨[], none, some "Effect size is modest", some "pre", some "suf"⟩
    let q2 : Selector := ⟨[], none, some "A different exact text", some "pre", some "suf"⟩
    fingerprintFromSelector q1 = none
    ∧ fingerprintFromSelector q2 = none
    ∧ fingerprintFromSelector q1 = fingerprintFromSelector q2
    ∧ q1.exact ≠ q2.exact := by
  refine ⟨rfl, rfl, rfl, by decide⟩

/-- **C5 amended.**  The fingerprint of a highlight is derived from the
selector's *first rect only*: its `x1, y1, x2, y2` formatted to two
decimals and joined as `"x1:y1:x2:y2"`, identically in `sidepanel.js`
(`fingerprintFromSelector`) and in the `addOverlayHighlights` fallback of
`pdf_viewer.js` (`overlayRectFingerprint`); a selector without rects — in
particular every quote selector — yields no fingerprint (`null`).  The
derivation is a pure function of the selector, so rebuilding it for a
fixed selection yields an identical fingerprint. -/
theorem c5_fingerprint_amended :
    (∀ (s : Selector) (r : Rect) (rest : List Rect), s.rects = r :: rest →
      fingerprintFromSelector s = some (overlayRectFingerprint r))
    ∧ (∀ s : Selector, s.rects = [] → fingerprintFromSelector s = none)
    ∧ (∀ r : Rect, overlayRectFingerprint r
        = String.intercalate ":" ([r.x1, r.y1, r.x2, r.y2].map toFixed2))
    ∧ (∀ s₁ s₂ : Selector, s₁ = s₂ →
        fingerprintFromSelector s₁ = fingerprintFromSelector s₂) := by
  refine ⟨?_, ?_, fun r => rfl, fun s₁ s₂ h => by rw [h]⟩
  · intro s r rest hr
    simp [fingerprintFromSelector, hr, overlayRectFingerprint]
  · intro s hr
    simp [fingerprintFromSelector, hr]

/-- Witness for the amended C5: the Control Panel's fingerprint of a
one-rect area selector on page 3 equals the Overlay Engine's fallback
fingerprint of that same rect. -/
theorem c5_fingerprint_amended_witness :
    fingerprintFromSelector ⟨[⟨100, 200, 300, 220⟩], some 3, none, none, none⟩
      = some (overlayRectFingerprint ⟨100, 200, 300, 220⟩) :=
  c5_fingerprint_amended.1 ⟨[⟨100, 200, 300, 220⟩], some 3, none, none, none⟩
    ⟨100, 200, 300, 220⟩ [] rfl

/-- **C3.**  Zoom invariance: marks are stored in normalised `[0,1]`
coordinates and never touched by re-rendering; the painted pixel boxes
are a pure function of the stored marks and the current viewport
(`denormMark`).  Hence rendering at scale `s1`, switching to any scale
`s2`, and returning to `s1` reproduces exactly the same pixel boxes (in
the exact rational model; floating point adds only rounding error), for
any in-range `s1` (`clampScale s1 = s1`) and an empty pending queue. -/
theorem c3_zoom_invariance (st : ViewerPageState) (base : Viewport) (s1 s2 : ℚ)
    (hscale : st.scale = s1) (hclamp : clampScale s1 = s1) (hpending : st.pending = []) :
    renderOverlayPositions (setScale base s1 (setScale base s2 st)) base
      = renderOverlayPositions st base
    ∧ (setScale base s1 (setScale base s2 st)).marks = st.marks
    ∧ (setScale base s1 (setScale base s2 st)).scale = s1 := by
  by_cases h1 : |clampScale s2 - st.scale| < 1/100
  · have hinner : setScale base s2 st = st := by
      simp only [setScale]
      rw [if_pos h1]
    rw [hinner]
    have houter : setScale base s1 st = st := by
      simp only [setScale]
      rw [if_pos (by rw [hclamp, hscale]; simp)]
    rw [houter]
    exact ⟨rfl, rfl, hscale⟩
  · have hinner : setScale base s2 st = ⟨st.marks, [], clampScale s2⟩ := by
      simp only [setScale]
      rw [if_neg h1, hpending]
      simp [addOverlayMarks]
    rw [hinner]
    have hcond : ¬ |clampScale s1 - (⟨st.marks, [], clampScale s2⟩ : ViewerPageState).scale|
        < 1/100 := by
      rw [hclamp]
      simp only
      rw [abs_sub_comm]
      rw [hscale] at h1
      exact h1
    have houter : setScale base s1 (⟨st.marks, [], clampScale s2⟩ : ViewerPageState)
        = ⟨st.marks, [], s1⟩ := by
      simp only [setScale]
      rw [if_neg hcond]
      simp [addOverlayMarks, hclamp]
    rw [houter]
    refine ⟨?_, rfl, rfl⟩
    simp [renderOverlayPositions, hscale]

/-- Witness for C3: one stored mark, base page 612×792, zoom from scale 1
to scale 2 and back. -/
theorem c3_zoom_invariance_witness :
    let st : ViewerPageState :=
      ⟨[⟨1/10, 1/5, 3/10, 11/50, "positive", some "f", some "l1", some "h1"⟩], [], 1⟩
    let base : Viewport := ⟨612, 792⟩
    renderOverlayPositions (setScale base 1 (setScale base 2 st)) base
      = renderOverlayPositions st base
    ∧ (setScale base 1 (setScale base 2 st)).marks = st.marks
    ∧ (setScale base 1 (setScale base 2 st)).scale = 1 :=
  c3_zoom_invariance
    ⟨[⟨1/10, 1/5, 3/10, 11/50, "positive", some "f", some "l1", some "h1"⟩], [], 1⟩
    ⟨612, 792⟩ 1 2 rfl (by norm_num [clampScale]) rfl

/-- A mark carrying a `highlightId` merge-matches itself (first criterion
of the `findIndex` callback). -/
theorem overlayMergeMatches_self (r : OverlayMark) (h : String)
    (hr : r.highlightId = some h) : overlayMergeMatches r r = true := by
  simp [overlayMergeMatches, hr]

/-- Core of C2: merging a confirmation mark `r` with `highlightId h` into
a list with no `h`-mark is idempotent, and the merged list holds exactly
one mark with `highlightId h`. -/
theorem mergeOverlayMark_idem_of_fresh (r : OverlayMark) (h : String)
    (L : List OverlayMark) (hr : r.highlightId = some h)
    (hL : ∀ m ∈ L, m.highlightId ≠ some h) :
    mergeOverlayMark r (mergeOverlayMark r L) = mergeOverlayMark r L
    ∧ (mergeOverlayMark r L).countP (fun m => m.highlightId == some h) = 1 := by
  have hself : overlayMergeMatches r r = true := overlayMergeMatches_self r h hr
  induction L with
  | nil =>
    constructor
    · simp [mergeOverlayMark, hself]
    · simp [mergeOverlayMark, hr]
  | cons m rest ih =>
    have hm : m.highlightId ≠ some h := hL m (List.mem_cons_self m rest)
    have hrest := ih (fun x hx => hL x (List.mem_cons_of_mem _ hx))
    by_cases hmatch : overlayMergeMatches r m = true
    · constructor
      · simp [mergeOverlayMark, hmatch, hself]
      · have hzero : rest.countP (fun x => x.highlightId == some h) = 0 := by
          rw [List.countP_eq_zero]
          intro x hx
          simp [hL x (List.mem_cons_of_mem _ hx)]
        simp [mergeOverlayMark, hmatch, List.countP_cons, hr, hzero]
    · constructor
      · simp [mergeOverlayMark, hmatch, hrest.1]
      · simp only [mergeOverlayMark]
        rw [if_neg hmatch]
        rw [List.countP_cons]
        have hmfalse : (m.highlightId == some h) = false := by
          simp [hm]
        simp [hmfalse, hrest.2]

/-- **C2.**  Idempotent confirmation: with the page viewport known, no
stored mark on the page carrying `highlightId h`, and a confirmation
payload rect carrying `highlightId h` (plus its `localId`, page and
geometry), applying the update twice through `addOverlayHighlights`
leaves the page state exactly as after the first application, and the
page holds exactly one mark with that `highlightId` — the insertion
priority order (`highlightId`, then `localId` under the 0.002
geometry-origin epsilon, then fingerprint) updates the existing mark
instead of appending a new one, so a confirmation broadcast arriving
after the optimistic mark was drawn never duplicates the visual. -/
theorem c2_confirmation_idempotent (st : PageOverlayState) (vp : Viewport)
    (rp : RectPayload) (h : String) (hvp : st.viewport = some vp)
    (hrp : rp.highlightId = some h)
    (hmarks : ∀ m ∈ st.marks, m.highlightId ≠ some h) :
    addOverlayHighlights (addOverlayHighlights st [rp]) [rp] = addOverlayHighlights st [rp]
    ∧ (addOverlayHighlights st [rp]).marks.countP (fun m => m.highlightId == some h) = 1 := by
  have hr : (normalisePayload vp rp).highlightId = some h := hrp
  have hcore := mergeOverlayMark_idem_of_fresh (normalisePayload vp rp) h st.marks hr hmarks
  have hstep : addOverlayHighlights st [rp]
      = { st with marks := mergeOverlayMark (normalisePayload vp rp) st.marks } := by
    simp [addOverlayHighlights, hvp, addOverlayMarks]
  constructor
  · rw [hstep]
    have hstep2 : addOverlayHighlights
        { st with marks := mergeOverlayMark (normalisePayload vp rp) st.marks } [rp]
        = { st with
            marks := mergeOverlayMark (normalisePayload vp rp)
              (mergeOverlayMark (normalisePayload vp rp) st.marks) } := by
      simp [addOverlayHighlights, hvp, addOverlayMarks]
    rw [hstep2, hcore.1]
  · rw [hstep]
    exact hcore.2

/-- Witness for C2: one optimistic mark (`localId l1`, no `highlightId`)
already drawn; the confirmation rect carries `localId l1` and
`highlightId h1`. -/
theorem c2_confirmation_idempotent_witness :
    let st : PageOverlayState :=
      ⟨[⟨1/8, 1/5, 3/8, 1/4, "positive", some "100.00:200.00:300.00:220.00", some "l1", none⟩],
        [], some ⟨800, 1000⟩⟩
    let rp : RectPayload :=
      ⟨100, 200, 300, 250, some "positive", none, some "l1", some "h1"⟩
    addOverlayHighlights (addOverlayHighlights st [rp]) [rp] = addOverlayHighlights st [rp]
    ∧ (addOverlayHighlights st [rp]).marks.countP
        (fun m => m.highlightId == some "h1") = 1 :=
  c2_confirmation_idempotent _ ⟨800, 1000⟩ _ "h1" rfl rfl
    (by intro m hm; simp at hm; rw [hm]; decide)

/-- With pairwise-distinct cached ids, the last-wins map of
`reorderHighlights` coincides with a first-match lookup. -/
theorem mapOfHighlights_eq_find (list : List CachedHighlight)
    (hnodup : (list.filterMap (fun hl => hl.highlight_id)).Nodup) (id : String) :
    mapOfHighlights list id = list.find? (fun hl => hl.highlight_id == some id) := by
  induction list with
  | nil => rfl
  | cons x rest ih =>
    by_cases hx : (x.highlight_id == some id) = true
    · have hxid : x.highlight_id = some id := by simpa using hx
      have hnotin : ∀ y ∈ rest, y.highlight_id ≠ some id := by
        intro y hy hyid
        rw [List.filterMap_cons, hxid] at hnodup
        have : id ∉ rest.filterMap (fun hl => hl.highlight_id) :=
          (List.nodup_cons.mp hnodup).1
        exact this (List.mem_filterMap.mpr ⟨y, hy, hyid⟩)
      have hfilter : rest.filter (fun hl => hl.highlight_id == some id) = [] := by
        rw [List.filter_eq_nil_iff]
        intro y hy
        simp [hnotin y hy]
      simp [mapOfHighlights, List.filter_cons, hx, hfilter, List.find?_cons_of_pos _ hx]
    · have hnodup' : (rest.filterMap (fun hl => hl.highlight_id)).Nodup := by
        rw [List.filterMap_cons] at hnodup
        cases hxid : x.highlight_id with
        | none => rwa [hxid] at hnodup
        | some v =>
          rw [hxid] at hnodup
          exact (List.nodup_cons.mp hnodup).2
      have hxf : (x.highlight_id == some id) = false := by
        simpa using hx
      have h1 : mapOfHighlights (x :: rest) id = mapOfHighlights rest id := by
        simp only [mapOfHighlights, List.filter_cons, hxf]
        simp
      have h2 : List.find? (fun hl => hl.highlight_id == some id) (x :: rest)
          = List.find? (fun hl => hl.highlight_id == some id) rest := by
        rw [List.find?_cons]
        rw [hxf]
      rw [h1, h2]
      exact ih hnodup'

/-- The ordered pass of `reorderHighlights` emits, for each first
occurrence of an id in the saved order, the mapped highlight — formally:
its output is `filterMap` of the map over the de-duplicated order.  The
`used` set of the pass and the `seen` set of de-duplication stay related
by: everything used was seen, and everything seen was either used or
unmapped. -/
theorem orderedWithUsed_fst (map : String → Option CachedHighlight) :
    ∀ (order used seen : List String),
    (∀ x, x ∈ used → x ∈ seen) →
    (∀ x, x ∈ seen → x ∈ used ∨ map x = none) →
    (orderedWithUsed map order used).1 = (dedupFirstGo seen order).filterMap map := by
  intro order
  induction order with
  | nil => intro used seen _ _; rfl
  | cons a rest ih =>
    intro used seen hus hsu
    cases hma : map a with
    | some hval =>
      by_cases hau : a ∈ used
      · have has : seen.contains a = true := by simpa using hus a hau
        have hauc : used.contains a = true := by simpa using hau
        simp only [orderedWithUsed, hma, hauc, if_true, dedupFirstGo, has]
        exact ih used seen hus hsu
      · have has : a ∉ seen := by
          intro hc
          rcases hsu a hc with h0 | h0
          · exact hau h0
          · rw [hma] at h0; exact Option.noConfusion h0
        have hasc : seen.contains a = false := by simpa using has
        have hauc : used.contains a = false := by simpa using hau
        simp only [orderedWithUsed, hma, hauc, Bool.false_eq_true, if_false,
          dedupFirstGo, hasc, List.filterMap_cons]
        refine congrArg (hval :: ·) (ih (a :: used) (a :: seen) ?_ ?_)
        · intro x hx
          rcases List.mem_cons.mp hx with hx | hx
          · exact List.mem_cons.mpr (Or.inl hx)
          · exact List.mem_cons.mpr (Or.inr (hus x hx))
        · intro x hx
          rcases List.mem_cons.mp hx with hx | hx
          · exact Or.inl (List.mem_cons.mpr (Or.inl hx))
          · rcases hsu x hx with h0 | h0
            · exact Or.inl (List.mem_cons.mpr (Or.inr h0))
            · exact Or.inr h0
    | none =>
      by_cases has : a ∈ seen
      · have hasc : seen.contains a = true := by simpa using has
        simp only [orderedWithUsed, hma, dedupFirstGo, hasc, if_true]
        exact ih used seen hus hsu
      · have hasc : seen.contains a = false := by simpa using has
        simp only [orderedWithUsed, hma, dedupFirstGo, hasc, Bool.false_eq_true, if_false,
          List.filterMap_cons]
        refine ih used (a :: seen) ?_ ?_
        · intro x hx
          exact List.mem_cons.mpr (Or.inr (hus x hx))
        · intro x hx
          rcases List.mem_cons.mp hx with hx | hx
          · subst hx; exact Or.inr hma
          · exact hsu x hx

/-- Membership in the `used` set accumulated by the ordered pass: already
used, or a saved-order id that the map resolves. -/
theorem mem_orderedWithUsed_snd (map : String → Option CachedHighlight) :
    ∀ (order used : List String) (x : String),
    x ∈ (orderedWithUsed map order used).2
      ↔ x ∈ used ∨ (x ∈ order ∧ (map x).isSome) := by
  intro order
  induction order with
  | nil => intro used x; simp [orderedWithUsed]
  | cons a rest ih =>
    intro used x
    cases hma : map a with
    | some hval =>
      by_cases hau : a ∈ used
      · have hauc : used.contains a = true := by simpa using hau
        simp only [orderedWithUsed, hma, hauc, if_true]
        rw [ih used x]
        have hax : x = a → x ∈ used := fun hxe => hxe ▸ hau
        simp only [List.mem_cons]
        tauto
      · have hauc : used.contains a = false := by simpa using hau
        simp only [orderedWithUsed, hma, hauc, Bool.false_eq_true, if_false]
        rw [ih (a :: used) x]
        have hsa : x = a → (map x).isSome = true := by
          intro hxe; rw [hxe, hma]; rfl
        simp only [List.mem_cons]
        tauto
    | none =>
      simp only [orderedWithUsed, hma]
      rw [ih used x]
      have hns : x = a → ¬ (map x).isSome = true := by
        intro hxe; rw [hxe, hma]; simp
      simp only [List.mem_cons]
      tauto

/-- A highlight present in the cache makes the last-wins map resolve its
id. -/
theorem mapOfHighlights_isSome (list : List CachedHighlight) (hl : CachedHighlight)
    (id : String) (hmem : hl ∈ list) (hid : hl.highlight_id = some id) :
    (mapOfHighlights list id).isSome = true := by
  rw [mapOfHighlights, List.getLast?_isSome]
  intro hnil
  have : hl ∈ list.filter (fun h0 => h0.highlight_id == some id) :=
    List.mem_filter.mpr ⟨hmem, by simp [hid]⟩
  rw [hnil] at this
  exact List.not_mem_nil hl this

/-- **C4.**  For a paginated document's cached highlight list with
pairwise-distinct ids and any saved `highlightOrder`, the re-sorted list
is exactly: the highlights named in the order first, in first-occurrence
order, followed by every highlight absent from the order (or without an
id), stable in their original insertion order.  In particular, applying
`highlightOrder = [h2, h1]` to cached highlights `[h1, h2, h3]` yields
`[h2, h1, h3]`.  (`reorderHighlights` in `pdf_viewer.js` and the
`PDF_REVIEW_SAVED` re-sort in `sidepanel.js` are the same algorithm.) -/
theorem c4_reorder_highlights (list : List CachedHighlight) (order : List String)
    (hnodup : (list.filterMap (fun hl => hl.highlight_id)).Nodup) :
    reorderHighlights list order
      = (dedupFirst order).filterMap
          (fun id => list.find? (fun hl => hl.highlight_id == some id))
        ++ list.filter (fun hl =>
            match hl.highlight_id with
            | none => true
            | some id => !(order.contains id))
    ∧ reorderHighlights
        [⟨some "h1", "t1"⟩, ⟨some "h2", "t2"⟩, ⟨some "h3", "t3"⟩] ["h2", "h1"]
        = [⟨some "h2", "t2"⟩, ⟨some "h1", "t1"⟩, ⟨some "h3", "t3"⟩] := by
  refine ⟨?_, by decide⟩
  by_cases hlist : list.isEmpty
  · have hl0 : list = [] := by
      cases list with
      | nil => rfl
      | cons x xs => simp at hlist
    subst hl0
    simp only [reorderHighlights, List.isEmpty_nil, if_true]
    rw [eq_comm]
    simp only [List.filter_nil, List.append_nil]
    rw [List.filterMap_eq_nil_iff]
    intro id _
    rfl
  · by_cases horder : order.isEmpty
    · have ho0 : order = [] := by
        cases order with
        | nil => rfl
        | cons x xs => simp at horder
      subst ho0
      simp only [reorderHighlights, hlist, Bool.false_eq_true, if_false,
        List.isEmpty_nil, if_true, dedupFirst, dedupFirstGo, List.filterMap_nil,
        List.nil_append]
      rw [eq_comm, List.filter_eq_self]
      intro hl _
      cases hid : hl.highlight_id <;> simp
    · simp only [reorderHighlights, hlist, horder, Bool.false_eq_true, if_false]
      have hmap : mapOfHighlights list
          = fun id => list.find? (fun hl => hl.highlight_id == some id) :=
        funext (mapOfHighlights_eq_find list hnodup)
      congr 1
      · rw [orderedWithUsed_fst (mapOfHighlights list) order [] []
          (fun x hx => hx) (fun x hx => absurd hx (List.not_mem_nil x))]
        rw [hmap]
        rfl
      · refine List.filter_congr ?_
        intro hl hmem
        cases hid : hl.highlight_id with
        | none => rfl
        | some id =>
          simp only
          have hiff := mem_orderedWithUsed_snd (mapOfHighlights list) order [] id
          by_cases hin : id ∈ order
          · have : id ∈ (orderedWithUsed (mapOfHighlights list) order []).2 :=
              hiff.mpr (Or.inr ⟨hin, mapOfHighlights_isSome list hl id hmem hid⟩)
            have h1 : (orderedWithUsed (mapOfHighlights list) order []).2.contains id
                = true := by simpa using this
            have h2 : order.contains id = true := by simpa using hin
            rw [h1, h2]
          · have : id ∉ (orderedWithUsed (mapOfHighlights list) order []).2 := by
              intro hc
              rcases hiff.mp hc with h0 | h0
              · exact List.not_mem_nil id h0
              · exact hin h0.1
            have h1 : (orderedWithUsed (mapOfHighlights list) order []).2.contains id
                = false := by simpa using this
            have h2 : order.contains id = false := by simpa using hin
            rw [h1, h2]

/-- Witness for C4: the claim's own example, `[h1, h2, h3]` re-sorted by
`highlightOrder = [h2, h1]`. -/
theorem c4_reorder_highlights_witness :
    ((([⟨some "h1", "t1"⟩, ⟨some "h2", "t2"⟩, ⟨some "h3", "t3"⟩] :
        List CachedHighlight).filterMap (fun hl => hl.highlight_id)).Nodup)
    ∧ (reorderHighlights
        [⟨some "h1", "t1"⟩, ⟨some "h2", "t2"⟩, ⟨some "h3", "t3"⟩] ["h2", "h1"]
        = (dedupFirst ["h2", "h1"]).filterMap
            (fun id => ([⟨some "h1", "t1"⟩, ⟨some "h2", "t2"⟩, ⟨some "h3", "t3"⟩] :
              List CachedHighlight).find? (fun hl => hl.highlight_id == some id))
          ++ ([⟨some "h1", "t1"⟩, ⟨some "h2", "t2"⟩, ⟨some "h3", "t3"⟩] :
              List CachedHighlight).filter (fun hl =>
              match hl.highlight_id with
              | none => true
              | some id => !(["h2", "h1"].contains id))
      ∧ reorderHighlights
          [⟨some "h1", "t1"⟩, ⟨some "h2", "t2"⟩, ⟨some "h3", "t3"⟩] ["h2", "h1"]
          = [⟨some "h2", "t2"⟩, ⟨some "h1", "t1"⟩, ⟨some "h3", "t3"⟩]) :=
  ⟨by decide,
    c4_reorder_highlights
      [⟨some "h1", "t1"⟩, ⟨some "h2", "t2"⟩, ⟨some "h3", "t3"⟩] ["h2", "h1"] (by decide)⟩

end ExpertAnnotator
